import Mathlib

/- Verification of the fractional-knapsack notebook: an offline LP optimum and an
   online threshold-admission algorithm, compared on the same item streams.
   Real-number semantics embed the notebook's floating-point computation exactly,
   with exp and log over the reals. -/

namespace Knapsack

/-- Item record from the notebook: namedtuple with fields value, weight, ratio. -/
structure Item where
  value : ℝ
  weight : ℝ
  ratio : ℝ

/-- Constant beta computed once per run of online_knapsack:
    beta = max_weight / (1 + log (p_max / p_min)). -/
noncomputable def betaOf (p_min p_max max_weight : ℝ) : ℝ :=
  max_weight / (1 + Real.log (p_max / p_min))

/-- Per-item threshold of online_knapsack at cumulative accepted weight y:
    p_min if y < beta, else p_min * exp (y / beta - 1). -/
noncomputable def threshold (p_min beta y : ℝ) : ℝ :=
  if y < beta then p_min else p_min * Real.exp (y / beta - 1)

/-- One iteration of the loop body of online_knapsack on state s = (y, total_value):
    accept the item in full iff its ratio exceeds the threshold and it still fits. -/
noncomputable def onlineStep (p_min max_weight beta : ℝ) (s : ℝ × ℝ) (item : Item) :
    ℝ × ℝ :=
  if item.ratio > threshold p_min beta s.1 ∧ s.1 + item.weight ≤ max_weight then
    (s.1 + item.weight, s.2 + item.value)
  else s

/-- Loop of online_knapsack as a fold over the arrival-ordered stream, starting
    from y = 0 and total_value = 0. -/
noncomputable def onlineRun (items : List Item) (p_min p_max max_weight : ℝ) : ℝ × ℝ :=
  items.foldl (onlineStep p_min max_weight (betaOf p_min p_max max_weight)) (0, 0)

/-- States (y, total_value) of the online run after every per-item step, with the
    initial state first. -/
noncomputable def onlineStates (items : List Item) (p_min p_max max_weight : ℝ) :
    List (ℝ × ℝ) :=
  items.scanl (onlineStep p_min max_weight (betaOf p_min p_max max_weight)) (0, 0)

/-- online_knapsack from the notebook: run the loop, return total_value. -/
noncomputable def online_knapsack (items : List Item) (p_min p_max max_weight : ℝ) : ℝ :=
  (onlineRun items p_min p_max max_weight).2

/-- Total weight of a fractional selection x, entry by entry. -/
def dotWeight (items : List Item) (x : List ℝ) : ℝ :=
  (List.zipWith (fun it xi => it.weight * xi) items x).sum

/-- Total value of a fractional selection x, entry by entry. -/
def dotValue (items : List Item) (x : List ℝ) : ℝ :=
  (List.zipWith (fun it xi => it.value * xi) items x).sum

/-- Feasible region of the LP built by offline_knapsack: one selection variable per
    item, box bounds 0 to 1, one capacity row. -/
def lpFeasible (items : List Item) (max_weight : ℝ) (x : List ℝ) : Prop :=
  x.length = items.length ∧ (∀ xi ∈ x, 0 ≤ xi ∧ xi ≤ 1) ∧
    dotWeight items x ≤ max_weight

/-- Achievable objective values of the fractional knapsack LP. -/
def lpValues (items : List Item) (max_weight : ℝ) : Set ℝ :=
  { v | ∃ x, lpFeasible items max_weight x ∧ v = dotValue items x }

/-- Optimal value of the fractional knapsack LP, as the supremum of the achievable
    objective values. -/
noncomputable def lpOpt (items : List Item) (max_weight : ℝ) : ℝ :=
  sSup (lpValues items max_weight)

/-- offline_knapsack from the notebook: it builds the LP with negated objective
    c_i = -value_i and calls linprog. The external solver is modelled by its
    contract: it returns the minimum of c · x over the feasible region, which
    equals the negation of the LP maximum. The function returns result.fun as is,
    without negating it back; the caller in test negates it. -/
noncomputable def offline_knapsack (items : List Item) (max_weight : ℝ) : ℝ :=
  -(lpOpt items max_weight)

/-- One generated item of test: drawn weight w, drawn density d, value = d * w,
    ratio = value / w. -/
noncomputable def mkItem (d w : ℝ) : Item :=
  { value := d * w, weight := w, ratio := d * w / w }

/-- Item-generation loop of test over the lists of drawn densities and weights. -/
noncomputable def genItems (ds ws : List ℝ) : List Item :=
  List.zipWith mkItem ds ws

/-- Restatement of the online algorithm following the specification text word by
    word, as explicit recursion on the stream with accumulators y and v, for the
    refinement claim: threshold is p_min while y < beta and p_min * exp (y/beta - 1)
    afterwards, an item is accepted in full exactly when its ratio exceeds the
    threshold and y + weight stays within max_weight, and v is returned after the
    last item. -/
noncomputable def specOnlineAux (p_min beta max_weight : ℝ) :
    List Item → ℝ → ℝ → ℝ
  | [], _, v => v
  | item :: rest, y, v =>
    if item.ratio > (if y < beta then p_min else p_min * Real.exp (y / beta - 1)) ∧
        y + item.weight ≤ max_weight then
      specOnlineAux p_min beta max_weight rest (y + item.weight) (v + item.value)
    else
      specOnlineAux p_min beta max_weight rest y v

/-- Specification-side online algorithm with beta as in the claim:
    beta = max_weight / (1 + ln (p_max / p_min)), started from 0, 0. -/
noncomputable def specOnline (items : List Item) (p_min p_max max_weight : ℝ) : ℝ :=
  specOnlineAux p_min (max_weight / (1 + Real.log (p_max / p_min))) max_weight items 0 0

/-- Fixed-threshold greedy step from the specification's degenerate case: accept
    iff ratio > d and the item still fits the remaining capacity. -/
noncomputable def greedyStep (d max_weight : ℝ) (s : ℝ × ℝ) (item : Item) : ℝ × ℝ :=
  if item.ratio > d ∧ s.1 + item.weight ≤ max_weight then
    (s.1 + item.weight, s.2 + item.value)
  else s

/-- Fixed-threshold greedy run from 0, 0. -/
noncomputable def greedyRun (items : List Item) (d max_weight : ℝ) : ℝ × ℝ :=
  items.foldl (greedyStep d max_weight) (0, 0)

/- Helper lemmas shared by several claims. -/

/-- The online step never pushes the cumulative accepted weight above max_weight,
    provided it was not above before. -/
lemma onlineStep_fst_le {p_min max_weight beta : ℝ} {s : ℝ × ℝ} {item : Item}
    (h : s.1 ≤ max_weight) : (onlineStep p_min max_weight beta s item).1 ≤ max_weight := by
  unfold onlineStep
  split
  · next hc => exact hc.2
  · exact h

/-- Capacity invariant along the fold. -/
lemma foldl_onlineStep_fst_le (p_min max_weight beta : ℝ) :
    ∀ (items : List Item) (s : ℝ × ℝ), s.1 ≤ max_weight →
      (List.foldl (onlineStep p_min max_weight beta) s items).1 ≤ max_weight := by
  intro items
  induction items with
  | nil => intro s hs; simpa using hs
  | cons item rest ih =>
    intro s hs
    simpa using ih (onlineStep p_min max_weight beta s item) (onlineStep_fst_le hs)

/-- Capacity invariant along the whole state trace. -/
lemma scanl_onlineStep_fst_le (p_min max_weight beta : ℝ) :
    ∀ (items : List Item) (s : ℝ × ℝ), s.1 ≤ max_weight →
      ∀ t ∈ List.scanl (onlineStep p_min max_weight beta) s items, t.1 ≤ max_weight := by
  intro items
  induction items with
  | nil =>
    intro s hs t ht
    simp only [List.scanl_nil, List.mem_singleton] at ht
    exact ht ▸ hs
  | cons item rest ih =>
    intro s hs t ht
    simp only [List.scanl_cons, List.singleton_append, List.mem_cons] at ht
    rcases ht with h | ht
    · exact h ▸ hs
    · exact ih (onlineStep p_min max_weight beta s item) (onlineStep_fst_le hs) t ht

/-- C10 preliminary: the fold over the empty stream is the initial state. -/
lemma onlineRun_nil (p_min p_max max_weight : ℝ) :
    onlineRun [] p_min p_max max_weight = (0, 0) := rfl

/-- C10: on the empty item stream the online algorithm makes no state change and
    returns 0. -/
theorem online_knapsack_nil (p_min p_max max_weight : ℝ)
    (hp : 0 < p_min) (hq : p_min ≤ p_max) (hW : 0 ≤ max_weight) :
    onlineRun [] p_min p_max max_weight = (0, 0) ∧
      online_knapsack [] p_min p_max max_weight = 0 :=
  ⟨rfl, rfl⟩

/-- Witness for C10 at p_min = 1, p_max = 2, max_weight = 3. -/
theorem online_knapsack_nil_witness :
    onlineRun [] 1 2 3 = (0, 0) ∧ online_knapsack [] 1 2 3 = 0 :=
  online_knapsack_nil 1 2 3 (by norm_num) (by norm_num) (by norm_num)

/-- C3: for any stream of items with non-negative weights and any non-negative
    max_weight, the cumulative accepted weight stays at most max_weight after
    every per-item step of the online run. -/
theorem accepted_weight_le_max_weight (items : List Item) (p_min p_max max_weight : ℝ)
    (hW : 0 ≤ max_weight) (hw : ∀ it ∈ items, 0 ≤ it.weight) :
    ∀ s ∈ onlineStates items p_min p_max max_weight, s.1 ≤ max_weight := by
  intro s hs
  exact scanl_onlineStep_fst_le p_min max_weight (betaOf p_min p_max max_weight)
    items (0, 0) (by simpa using hW) s hs

/-- Witness for C3: the state reached after the first item of a concrete one-item
    stream respects the capacity. -/
theorem accepted_weight_le_max_weight_witness :
    (onlineStep 1 1 (betaOf 1 2 1) (0, 0) ⟨1, 1, 1⟩).1 ≤ 1 :=
  accepted_weight_le_max_weight [⟨1, 1, 1⟩] 1 2 1 (by norm_num)
    (by intro it hit; simp only [List.mem_singleton] at hit; subst hit; norm_num)
    (onlineStep 1 1 (betaOf 1 2 1) (0, 0) ⟨1, 1, 1⟩)
    (by unfold onlineStates; simp)

/-- The specification-side recursion agrees with the source-side fold from any
    intermediate state. -/
lemma specOnlineAux_eq_foldl (p_min beta max_weight : ℝ) :
    ∀ (items : List Item) (y v : ℝ),
      specOnlineAux p_min beta max_weight items y v =
        (List.foldl (onlineStep p_min max_weight beta) (y, v) items).2 := by
  intro items
  induction items with
  | nil => intro y v; rfl
  | cons item rest ih =>
    intro y v
    by_cases hc : item.ratio > threshold p_min beta y ∧ y + item.weight ≤ max_weight
    · have hc' : item.ratio >
          (if y < beta then p_min else p_min * Real.exp (y / beta - 1)) ∧
          y + item.weight ≤ max_weight := hc
      rw [specOnlineAux, if_pos hc', List.foldl_cons,
        show onlineStep p_min max_weight beta (y, v) item =
          (y + item.weight, v + item.value) from if_pos hc]
      exact ih (y + item.weight) (v + item.value)
    · have hc' : ¬ (item.ratio >
          (if y < beta then p_min else p_min * Real.exp (y / beta - 1)) ∧
          y + item.weight ≤ max_weight) := hc
      rw [specOnlineAux, if_neg hc', List.foldl_cons,
        show onlineStep p_min max_weight beta (y, v) item = (y, v) from if_neg hc]
      exact ih y v

/-- C1: the online algorithm is exactly the per-item threshold procedure the
    specification describes: starting from accepted weight 0 and accepted value 0,
    with beta = max_weight / (1 + ln (p_max / p_min)), it accepts an item in full
    exactly when its ratio exceeds the threshold and it still fits, and returns the
    accepted value after the last item. -/
theorem online_knapsack_refines_spec (items : List Item) (p_min p_max max_weight : ℝ)
    (hp : 0 < p_min) (hq : p_min ≤ p_max) (hW : 0 ≤ max_weight) :
    online_knapsack items p_min p_max max_weight =
      specOnline items p_min p_max max_weight := by
  unfold online_knapsack onlineRun specOnline betaOf
  exact (specOnlineAux_eq_foldl _ _ _ items 0 0).symm

/-- Witness for C1 on a concrete one-item stream. -/
theorem online_knapsack_refines_spec_witness :
    online_knapsack [⟨1, 1, 1⟩] 1 2 1 = specOnline [⟨1, 1, 1⟩] 1 2 1 :=
  online_knapsack_refines_spec [⟨1, 1, 1⟩] 1 2 1 (by norm_num) (by norm_num)
    (by norm_num)

/-- Positivity of beta for valid parameters and positive capacity. -/
lemma betaOf_pos {p_min p_max max_weight : ℝ} (hp : 0 < p_min) (hq : p_min ≤ p_max)
    (hW : 0 < max_weight) : 0 < betaOf p_min p_max max_weight := by
  have h1 : (1 : ℝ) ≤ p_max / p_min := (one_le_div hp).2 hq
  have h2 : 0 ≤ Real.log (p_max / p_min) := Real.log_nonneg h1
  exact div_pos hW (by linarith)

/-- C7: for fixed valid parameters with positive capacity, the threshold is a
    monotone non-decreasing function of the cumulative accepted weight. -/
theorem threshold_mono (p_min p_max max_weight y1 y2 : ℝ)
    (hp : 0 < p_min) (hq : p_min ≤ p_max) (hW : 0 < max_weight)
    (h0 : 0 ≤ y1) (h12 : y1 ≤ y2) :
    threshold p_min (betaOf p_min p_max max_weight) y1 ≤
      threshold p_min (betaOf p_min p_max max_weight) y2 := by
  have hbpos : 0 < betaOf p_min p_max max_weight := betaOf_pos hp hq hW
  unfold threshold
  by_cases h1 : y1 < betaOf p_min p_max max_weight
  · rw [if_pos h1]
    by_cases h2 : y2 < betaOf p_min p_max max_weight
    · rw [if_pos h2]
    · rw [if_neg h2]
      have hy2 : betaOf p_min p_max max_weight ≤ y2 := le_of_not_lt h2
      have hone : (1 : ℝ) ≤ y2 / betaOf p_min p_max max_weight :=
        (one_le_div hbpos).2 hy2
      have hE : (1 : ℝ) ≤ Real.exp (y2 / betaOf p_min p_max max_weight - 1) :=
        Real.one_le_exp (by linarith)
      nlinarith
  · rw [if_neg h1, if_neg (fun h => h1 (lt_of_le_of_lt h12 h))]
    have hdiv : y1 / betaOf p_min p_max max_weight ≤
        y2 / betaOf p_min p_max max_weight :=
      (div_le_div_iff_of_pos_right hbpos).2 h12
    have hE := Real.exp_le_exp.2 (show y1 / betaOf p_min p_max max_weight - 1 ≤
      y2 / betaOf p_min p_max max_weight - 1 by linarith)
    nlinarith [Real.exp_pos (y1 / betaOf p_min p_max max_weight - 1)]

/-- Witness for C7 at p_min = 1, p_max = 2, max_weight = 1, y1 = 0, y2 = 5. -/
theorem threshold_mono_witness :
    threshold 1 (betaOf 1 2 1) 0 ≤ threshold 1 (betaOf 1 2 1) 5 :=
  threshold_mono 1 2 1 0 5 (by norm_num) (by norm_num) (by norm_num) (by norm_num)
    (by norm_num)

/-- When p_min = p_max = d with d nonzero, beta reduces to max_weight. -/
lemma betaOf_self {d : ℝ} (max_weight : ℝ) (hd : d ≠ 0) :
    betaOf d d max_weight = max_weight := by
  unfold betaOf
  rw [div_self hd, Real.log_one]
  norm_num

/-- With beta = max_weight nonzero, the threshold is the constant d at every
    reachable cumulative weight. -/
lemma threshold_const {d max_weight y : ℝ} (hW : max_weight ≠ 0)
    (hy : y ≤ max_weight) : threshold d max_weight y = d := by
  unfold threshold
  by_cases h : y < max_weight
  · rw [if_pos h]
  · rw [if_neg h, le_antisymm hy (le_of_not_lt h), div_self hW]
    norm_num

/-- In the degenerate regime the online step is the fixed-threshold greedy step. -/
lemma onlineStep_eq_greedyStep {d max_weight : ℝ} (hW : max_weight ≠ 0)
    {s : ℝ × ℝ} (hs : s.1 ≤ max_weight) (item : Item) :
    onlineStep d max_weight max_weight s item = greedyStep d max_weight s item := by
  unfold onlineStep greedyStep
  rw [threshold_const hW hs]

/-- In the degenerate regime the whole fold coincides with the greedy fold. -/
lemma foldl_online_eq_greedy {d max_weight : ℝ} (hW : max_weight ≠ 0) :
    ∀ (items : List Item) (s : ℝ × ℝ), s.1 ≤ max_weight →
      List.foldl (onlineStep d max_weight max_weight) s items =
        List.foldl (greedyStep d max_weight) s items := by
  intro items
  induction items with
  | nil => intro s _; rfl
  | cons item rest ih =>
    intro s hs
    rw [List.foldl_cons, List.foldl_cons, onlineStep_eq_greedyStep hW hs,
      ← onlineStep_eq_greedyStep hW hs]
    exact ih _ (onlineStep_fst_le hs)

/-- C6 counterexample: with p_min = p_max = 1 (so d = 1) and max_weight = -1, the
    threshold computed at the initial accepted weight 0 of any run is exp (-1),
    which differs from the constant d = 1. -/
theorem degenerate_threshold_counterexample :
    threshold 1 (betaOf 1 1 (-1)) 0 = Real.exp (-1) ∧ Real.exp (-1) ≠ 1 := by
  constructor
  · have hb : betaOf 1 1 (-1) = -1 := by
      unfold betaOf
      norm_num [Real.log_one]
    rw [hb]
    unfold threshold
    rw [if_neg (by norm_num : ¬ (0 : ℝ) < -1)]
    norm_num
  · exact ne_of_lt (Real.exp_lt_one_iff.2 (by norm_num))

/-- C6 amended: when p_min = p_max = d with d > 0 and max_weight > 0, the threshold
    equals the constant d at every step of the run, and the online algorithm
    coincides with the fixed-threshold greedy that accepts, in arrival order,
    exactly the items with ratio > d that still fit the remaining capacity. -/
theorem degenerate_threshold_greedy (items : List Item) (d max_weight : ℝ)
    (hd : 0 < d) (hW : 0 < max_weight) :
    (∀ s ∈ onlineStates items d d max_weight,
        threshold d (betaOf d d max_weight) s.1 = d) ∧
      onlineRun items d d max_weight = greedyRun items d max_weight := by
  have hb : betaOf d d max_weight = max_weight := betaOf_self max_weight (ne_of_gt hd)
  constructor
  · intro s hs
    rw [hb]
    refine threshold_const (ne_of_gt hW) ?_
    have := scanl_onlineStep_fst_le d max_weight (betaOf d d max_weight) items (0, 0)
      (by simpa using le_of_lt hW) s
    exact this (by simpa [onlineStates] using hs)
  · unfold onlineRun greedyRun
    rw [hb]
    exact foldl_online_eq_greedy (ne_of_gt hW) items (0, 0)
      (by simpa using le_of_lt hW)

/-- Witness for C6 amended on a concrete one-item stream with d = 1. -/
theorem degenerate_threshold_greedy_witness :
    (∀ s ∈ onlineStates [⟨2, 1, 2⟩] 1 1 1, threshold 1 (betaOf 1 1 1) s.1 = 1) ∧
      onlineRun [⟨2, 1, 2⟩] 1 1 1 = greedyRun [⟨2, 1, 2⟩] 1 1 :=
  degenerate_threshold_greedy [⟨2, 1, 2⟩] 1 1 (by norm_num) (by norm_num)

/-- Upper bound for every fractional selection value within the box bounds. -/
lemma dotValue_le (items : List Item) :
    ∀ x : List ℝ, (∀ xi ∈ x, 0 ≤ xi ∧ xi ≤ 1) →
      dotValue items x ≤ (items.map (fun it => max it.value 0)).sum := by
  induction items with
  | nil =>
    intro x _
    simp [dotValue]
  | cons item rest ih =>
    intro x hx
    cases x with
    | nil =>
      simp only [dotValue, List.zipWith_nil_right, List.sum_nil, List.map_cons,
        List.sum_cons]
      have h0 : 0 ≤ ((rest.map (fun it => max it.value 0)).sum) :=
        List.sum_nonneg (by
          intro v hv
          obtain ⟨it, -, rfl⟩ := List.mem_map.1 hv
          exact le_max_right _ _)
      have h1 : (0 : ℝ) ≤ max item.value 0 := le_max_right _ _
      linarith
    | cons a t =>
      have ha := hx a (List.mem_cons_self a t)
      have ht : ∀ xi ∈ t, 0 ≤ xi ∧ xi ≤ 1 := fun xi hxi => hx xi (List.mem_cons_of_mem a hxi)
      have h1 : item.value * a ≤ max item.value 0 := by
        rcases le_or_lt 0 item.value with h | h
        · have : item.value * a ≤ item.value * 1 := by nlinarith
          calc item.value * a ≤ item.value * 1 := this
            _ = item.value := mul_one _
            _ ≤ max item.value 0 := le_max_left _ _
        · have : item.value * a ≤ 0 := by nlinarith
          exact le_trans this (le_max_right _ _)
      have h2 := ih t ht
      simp only [dotValue, List.zipWith_cons_cons, List.sum_cons, List.map_cons] at h2 ⊢
      linarith

/-- The set of achievable LP values is bounded above. -/
lemma lpValues_bddAbove (items : List Item) (max_weight : ℝ) :
    BddAbove (lpValues items max_weight) := by
  refine ⟨(items.map (fun it => max it.value 0)).sum, ?_⟩
  rintro v ⟨x, ⟨-, hb, -⟩, rfl⟩
  exact dotValue_le items x hb

/-- The all-zero selection has zero total weight. -/
lemma dotWeight_replicate_zero (items : List Item) :
    dotWeight items (List.replicate items.length 0) = 0 := by
  induction items with
  | nil => rfl
  | cons item rest ih =>
    simp only [List.length_cons, List.replicate_succ, dotWeight,
      List.zipWith_cons_cons, List.sum_cons, mul_zero, zero_add] at ih ⊢
    exact ih

/-- The all-zero selection has zero total value. -/
lemma dotValue_replicate_zero (items : List Item) :
    dotValue items (List.replicate items.length 0) = 0 := by
  induction items with
  | nil => rfl
  | cons item rest ih =>
    simp only [List.length_cons, List.replicate_succ, dotValue,
      List.zipWith_cons_cons, List.sum_cons, mul_zero, zero_add] at ih ⊢
    exact ih

/-- Zero is always achievable when the budget is non-negative. -/
lemma zero_mem_lpValues {items : List Item} {max_weight : ℝ} (hW : 0 ≤ max_weight) :
    (0 : ℝ) ∈ lpValues items max_weight := by
  refine ⟨List.replicate items.length 0, ⟨List.length_replicate _ _, ?_, ?_⟩, ?_⟩
  · intro xi hxi
    rw [List.eq_of_mem_replicate hxi]
    norm_num
  · rw [dotWeight_replicate_zero]
    exact hW
  · exact (dotValue_replicate_zero items).symm

/-- The online run's acceptance decisions form a 0/1 selection whose total weight
    and value account exactly for the change of state across the run. -/
lemma online_selection (p_min max_weight beta : ℝ) :
    ∀ (items : List Item) (s : ℝ × ℝ), ∃ x : List ℝ,
      x.length = items.length ∧ (∀ xi ∈ x, xi = 0 ∨ xi = 1) ∧
      dotWeight items x =
        (List.foldl (onlineStep p_min max_weight beta) s items).1 - s.1 ∧
      dotValue items x =
        (List.foldl (onlineStep p_min max_weight beta) s items).2 - s.2 := by
  intro items
  induction items with
  | nil =>
    intro s
    exact ⟨[], rfl, by simp, by simp [dotWeight], by simp [dotValue]⟩
  | cons item rest ih =>
    intro s
    obtain ⟨x, hlen, hb, hwgt, hval⟩ := ih (onlineStep p_min max_weight beta s item)
    by_cases hc : item.ratio > threshold p_min beta s.1 ∧ s.1 + item.weight ≤ max_weight
    · have hstep : onlineStep p_min max_weight beta s item =
          (s.1 + item.weight, s.2 + item.value) := if_pos hc
      refine ⟨1 :: x, by simp [hlen], ?_, ?_, ?_⟩
      · intro xi hxi
        rcases List.mem_cons.1 hxi with h | h
        · exact Or.inr h
        · exact hb xi h
      · rw [hstep] at hwgt
        simp only [dotWeight, List.zipWith_cons_cons, List.sum_cons, mul_one,
          List.foldl_cons, hstep] at hwgt ⊢
        linarith
      · rw [hstep] at hval
        simp only [dotValue, List.zipWith_cons_cons, List.sum_cons, mul_one,
          List.foldl_cons, hstep] at hval ⊢
        linarith
    · have hstep : onlineStep p_min max_weight beta s item = s := if_neg hc
      refine ⟨0 :: x, by simp [hlen], ?_, ?_, ?_⟩
      · intro xi hxi
        rcases List.mem_cons.1 hxi with h | h
        · exact Or.inl h
        · exact hb xi h
      · rw [hstep] at hwgt
        simp only [dotWeight, List.zipWith_cons_cons, List.sum_cons, mul_zero,
          List.foldl_cons, hstep] at hwgt ⊢
        linarith
      · rw [hstep] at hval
        simp only [dotValue, List.zipWith_cons_cons, List.sum_cons, mul_zero,
          List.foldl_cons, hstep] at hval ⊢
        linarith

/-- C2: on every valid stream, the value the online algorithm returns is at most
    the optimum of the fractional-relaxation LP computed by the offline optimizer
    on the same items; the optimizer returns the solver's minimum, so the LP
    optimum is the negation of its return value. -/
theorem online_le_offline (items : List Item) (p_min p_max max_weight : ℝ)
    (hp : 0 < p_min) (hq : p_min ≤ p_max) (hW : 0 ≤ max_weight)
    (hitems : ∀ it ∈ items, 0 < it.weight ∧ p_min ≤ it.ratio ∧ it.ratio ≤ p_max) :
    online_knapsack items p_min p_max max_weight ≤
      -(offline_knapsack items max_weight) := by
  have hneg : -(offline_knapsack items max_weight) = lpOpt items max_weight :=
    neg_neg _
  rw [hneg]
  obtain ⟨x, hlen, hb, hwgt, hval⟩ :=
    online_selection p_min max_weight (betaOf p_min p_max max_weight) items (0, 0)
  have hmem : online_knapsack items p_min p_max max_weight ∈
      lpValues items max_weight := by
    refine ⟨x, ⟨hlen, ?_, ?_⟩, ?_⟩
    · intro xi hxi
      rcases hb xi hxi with h | h <;> rw [h] <;> norm_num
    · rw [hwgt]
      have hcap := foldl_onlineStep_fst_le p_min max_weight
        (betaOf p_min p_max max_weight) items (0, 0) (by simpa using hW)
      simpa using hcap
    · rw [hval]
      simp [online_knapsack, onlineRun]
  exact le_csSup (lpValues_bddAbove items max_weight) hmem

/-- Witness for C2 on a concrete valid one-item stream. -/
theorem online_le_offline_witness :
    online_knapsack [⟨1, 1, 1⟩] 1 1 1 ≤ -(offline_knapsack [⟨1, 1, 1⟩] 1) :=
  online_le_offline [⟨1, 1, 1⟩] 1 1 1 (by norm_num) (by norm_num) (by norm_num)
    (by
      intro it hit
      simp only [List.mem_singleton] at hit
      subst hit
      norm_num)

/-- The LP optimum on one unit-value unit-weight item with unit budget is 1. -/
lemma lpOpt_single_unit : lpOpt [⟨1, 1, 1⟩] 1 = 1 := by
  apply IsGreatest.csSup_eq
  constructor
  · refine ⟨[1], ⟨rfl, ?_, ?_⟩, ?_⟩
    · intro xi hxi
      simp only [List.mem_singleton] at hxi
      rw [hxi]
      norm_num
    · simp only [dotWeight, List.zipWith_cons_cons, List.zipWith_nil_right,
        List.sum_cons, List.sum_nil]
      norm_num
    · simp only [dotValue, List.zipWith_cons_cons, List.zipWith_nil_right,
        List.sum_cons, List.sum_nil]
      norm_num
  · rintro v ⟨x, ⟨hlen, hb, -⟩, rfl⟩
    cases x with
    | nil => simp at hlen
    | cons a t =>
      cases t with
      | nil =>
        have ha := hb a (List.mem_cons_self a [])
        simp only [dotValue, List.zipWith_cons_cons, List.zipWith_nil_right,
          List.sum_cons, List.sum_nil, one_mul, add_zero]
        exact ha.2
      | cons b u => simp at hlen

/-- C4 counterexample: on the single item with value 1, weight 1, ratio 1 and
    budget 1, the LP maximum is 1, but offline_knapsack returns the solver's
    minimized objective -1: the result is not negated back inside the solve
    operation, and the returned value is negative, not a non-negative maximum. -/
theorem offline_knapsack_counterexample :
    offline_knapsack [⟨1, 1, 1⟩] 1 = -1 ∧ lpOpt [⟨1, 1, 1⟩] 1 = 1 ∧
      offline_knapsack [⟨1, 1, 1⟩] 1 < 0 := by
  have h := lpOpt_single_unit
  refine ⟨?_, h, ?_⟩
  · unfold offline_knapsack
    rw [h]
  · unfold offline_knapsack
    rw [h]
    norm_num

/-- C4 amended: offline_knapsack returns the negation of the LP optimal value (the
    caller negates it back); the negation of its return value is the least upper
    bound of the achievable LP objective values. -/
theorem neg_offline_knapsack_isLUB (items : List Item) (max_weight : ℝ)
    (hW : 0 ≤ max_weight) (hw : ∀ it ∈ items, 0 < it.weight) :
    IsLUB (lpValues items max_weight) (-(offline_knapsack items max_weight)) := by
  have hneg : -(offline_knapsack items max_weight) = lpOpt items max_weight :=
    neg_neg _
  rw [hneg]
  exact isLUB_csSup ⟨0, zero_mem_lpValues hW⟩ (lpValues_bddAbove items max_weight)

/-- Witness for C4 amended on the single unit item. -/
theorem neg_offline_knapsack_isLUB_witness :
    IsLUB (lpValues [⟨1, 1, 1⟩] 1) (-(offline_knapsack [⟨1, 1, 1⟩] 1)) :=
  neg_offline_knapsack_isLUB [⟨1, 1, 1⟩] 1 (by norm_num)
    (by
      intro it hit
      simp only [List.mem_singleton] at hit
      subst hit
      norm_num)

/-- C5 counterexample: with the invalid parameter max_weight = -1 (and the valid
    item with value 1, weight 1, ratio 1), online_knapsack does not fail: it runs
    the loop, rejects the item at the capacity check, and returns 0. The source
    contains no parameter validation and no DomainError. -/
theorem online_knapsack_no_domain_error :
    online_knapsack [⟨1, 1, 1⟩] 1 1 (-1) = 0 := by
  unfold online_knapsack onlineRun
  rw [List.foldl_cons,
    show onlineStep 1 (-1) (betaOf 1 1 (-1)) (0, 0) ⟨1, 1, 1⟩ = (0, 0) from
      if_neg (fun h => by have := h.2; norm_num at this)]
  rfl

/-- C5 amended: the code never validates its parameters: on an invalid negative
    max_weight the online algorithm still processes the stream and returns a
    numeric result, 0 for any one-item stream with positive item weight, instead
    of raising a DomainError. -/
theorem online_knapsack_runs_on_invalid (p_min p_max max_weight : ℝ) (it : Item)
    (hW : max_weight < 0) (hw : 0 < it.weight) :
    online_knapsack [it] p_min p_max max_weight = 0 := by
  unfold online_knapsack onlineRun
  rw [List.foldl_cons,
    show onlineStep p_min max_weight (betaOf p_min p_max max_weight) (0, 0) it =
      (0, 0) from if_neg (fun h => by have := h.2; simp only [Prod.fst] at this; linarith)]
  rfl

/-- Witness for C5 amended at max_weight = -2. -/
theorem online_knapsack_runs_on_invalid_witness :
    online_knapsack [⟨1, 1, 1⟩] 1 1 (-2) = 0 :=
  online_knapsack_runs_on_invalid 1 1 (-2) ⟨1, 1, 1⟩ (by norm_num) (by norm_num)

/-- Every item built by the generation loop comes from a drawn density and a drawn
    weight. -/
lemma exists_pair_of_mem_genItems :
    ∀ (ds ws : List ℝ) (it : Item), it ∈ genItems ds ws →
      ∃ d ∈ ds, ∃ w ∈ ws, it = mkItem d w := by
  intro ds
  induction ds with
  | nil =>
    intro ws it h
    simp [genItems] at h
  | cons d ds ih =>
    intro ws it h
    cases ws with
    | nil => simp [genItems] at h
    | cons w ws =>
      simp only [genItems, List.zipWith_cons_cons, List.mem_cons] at h
      rcases h with h | h
      · exact ⟨d, List.mem_cons_self d ds, w, List.mem_cons_self w ws, h⟩
      · obtain ⟨d', hd', w', hw', h'⟩ := ih ws it h
        exact ⟨d', List.mem_cons_of_mem d hd', w', List.mem_cons_of_mem w hw', h'⟩

/-- C9 counterexample: the draw 0 lies in the half-open sampling interval from 0
    to epsilon used by the generator (numpy uniform includes its lower endpoint),
    and the item generated from density 2 and weight 0 has weight 0, not strictly
    positive, and its ratio is not the drawn density. -/
theorem generator_zero_weight_counterexample :
    (0 : ℝ) ∈ Set.Ico (0 : ℝ) 1 ∧ (2 : ℝ) ∈ Set.Ico (1 : ℝ) 5 ∧
      (mkItem 2 0).weight = 0 ∧ (mkItem 2 0).ratio ≠ 2 := by
  refine ⟨by norm_num, by norm_num, rfl, ?_⟩
  show (2 * 0 / 0 : ℝ) ≠ 2
  norm_num

/-- C9 amended: every item the generator builds from a strictly positive weight
    draw below epsilon and a density draw in the half-open density interval has
    strictly positive weight, and its ratio equals the drawn density, which lies
    within the closed density interval. -/
theorem generator_items_valid (ds ws : List ℝ) (p_min p_max epsilon : ℝ)
    (hds : ∀ d ∈ ds, p_min ≤ d ∧ d < p_max)
    (hws : ∀ w ∈ ws, 0 < w ∧ w < epsilon) :
    ∀ it ∈ genItems ds ws, 0 < it.weight ∧ (∃ d ∈ ds, it.ratio = d) ∧
      p_min ≤ it.ratio ∧ it.ratio ≤ p_max := by
  intro it hit
  obtain ⟨d, hd, w, hw, h⟩ := exists_pair_of_mem_genItems ds ws it hit
  subst h
  have hw' := hws w hw
  have hd' := hds d hd
  have hratio : (mkItem d w).ratio = d := by
    show d * w / w = d
    rw [mul_div_assoc, div_self (ne_of_gt hw'.1), mul_one]
  refine ⟨hw'.1, ⟨d, hd, hratio⟩, ?_, ?_⟩
  · rw [hratio]
    exact hd'.1
  · rw [hratio]
    exact le_of_lt hd'.2

/-- Witness for C9 amended on one drawn density 2 and one drawn weight one half. -/
theorem generator_items_valid_witness :
    0 < (mkItem 2 (1 / 2)).weight ∧
      (∃ d ∈ [(2 : ℝ)], (mkItem 2 (1 / 2)).ratio = d) ∧
      1 ≤ (mkItem 2 (1 / 2)).ratio ∧ (mkItem 2 (1 / 2)).ratio ≤ 5 :=
  generator_items_valid [2] [1 / 2] 1 5 1
    (by
      intro d hd
      simp only [List.mem_singleton] at hd
      subst hd
      norm_num)
    (by
      intro w hw
      simp only [List.mem_singleton] at hw
      subst hw
      norm_num)
    (mkItem 2 (1 / 2)) (List.mem_singleton.2 rfl)

/-- Numeric bound used by the concrete scenario: log 5 is below 7 / 3. -/
lemma log_five_lt : Real.log 5 < 7 / 3 := by
  rw [Real.log_lt_iff_lt_exp (by norm_num)]
  have h2 : Real.exp 2 ≤ Real.exp (7 / 3) := Real.exp_le_exp.2 (by norm_num)
  have he : (2.7182818283 : ℝ) < Real.exp 1 := Real.exp_one_gt_d9
  have hmul : Real.exp 2 = Real.exp 1 * Real.exp 1 := by
    rw [← Real.exp_add]
    norm_num
  nlinarith

/-- In the concrete scenario, beta is above 0.3. -/
lemma beta_scenario : (0.3 : ℝ) < betaOf 1 5 1 := by
  unfold betaOf
  have h5 : (5 : ℝ) / 1 = 5 := by norm_num
  rw [h5]
  have hL : Real.log 5 < 7 / 3 := log_five_lt
  have hLpos : 0 < Real.log 5 := Real.log_pos (by norm_num)
  rw [lt_div_iff₀ (by linarith)]
  linarith

/-- C8: on the stream of the spec's concrete scenario with p_min = 1, p_max = 5,
    max_weight = 1, the online algorithm accepts items 1 and 3, rejects item 2
    (the state is unchanged at the second step), ends with accepted weight 0.8,
    and returns the value 2.7. -/
theorem concrete_scenario :
    onlineStates [⟨1.2, 0.3, 4⟩, ⟨0.15, 0.3, 0.5⟩, ⟨1.5, 0.5, 3⟩] 1 5 1 =
      [(0, 0), (0.3, 1.2), (0.3, 1.2), (0.8, 2.7)] ∧
      online_knapsack [⟨1.2, 0.3, 4⟩, ⟨0.15, 0.3, 0.5⟩, ⟨1.5, 0.5, 3⟩] 1 5 1 = 2.7 := by
  have hb3 : (0.3 : ℝ) < betaOf 1 5 1 := beta_scenario
  have hb0 : (0 : ℝ) < betaOf 1 5 1 := lt_trans (by norm_num) hb3
  have ht0 : threshold 1 (betaOf 1 5 1) 0 = 1 := by
    unfold threshold
    exact if_pos hb0
  have ht3 : threshold 1 (betaOf 1 5 1) 0.3 = 1 := by
    unfold threshold
    exact if_pos hb3
  have h1 : onlineStep 1 1 (betaOf 1 5 1) (0, 0) ⟨1.2, 0.3, 4⟩ = (0.3, 1.2) := by
    unfold onlineStep
    rw [if_pos ⟨by rw [ht0]; norm_num, by norm_num⟩]
    norm_num
  have h2 : onlineStep 1 1 (betaOf 1 5 1) (0.3, 1.2) ⟨0.15, 0.3, 0.5⟩ = (0.3, 1.2) := by
    unfold onlineStep
    rw [if_neg (fun h => by rw [ht3] at h; have := h.1; norm_num at this)]
  have h3 : onlineStep 1 1 (betaOf 1 5 1) (0.3, 1.2) ⟨1.5, 0.5, 3⟩ = (0.8, 2.7) := by
    unfold onlineStep
    rw [if_pos ⟨by rw [ht3]; norm_num, by norm_num⟩]
    norm_num
  constructor
  · unfold onlineStates
    rw [List.scanl_cons, h1, List.scanl_cons, h2, List.scanl_cons, h3, List.scanl_nil]
    rfl
  · unfold online_knapsack onlineRun
    rw [List.foldl_cons, h1, List.foldl_cons, h2, List.foldl_cons, h3, List.foldl_nil]

end Knapsack
